import Mathlib

/-!
Shallow embedding of `moviepy/tools.py` (timecode normalizer `cvsecs`,
process invoker `subprocess_call`, codec/extension registry
`extensions_dict` / `find_extension`).

Python floats are modelled as exact rationals (`ℚ`); the regex digit
class `\d` is modelled as the ASCII digits `0`-`9`; a Python exception
is modelled as `none` / a dedicated constructor of an outcome type.
-/

namespace MoviePyTools

/-! ## The timecode grammar of `cvsecs` (source line 74)

The source matches the pattern `(\d+):(\d+):(\d+)[,|.](\d+)` with
`re.findall` and keeps the first (leftmost) match.  Note that in the
source the separator character class is `[,|.]`: inside a character
class `|` is a literal, so the pipe character is accepted as a
fractional separator as well. -/

/-- The separator character class `[,|.]` of the source regex, literally:
comma, pipe, dot. -/
def sepChars : List Char := [',', '|', '.']

/-- Modelled from the spec: the spec states the grammar
`(\d+):(\d+):(\d+)[.,](\d+)`, whose separator class contains only the
dot and the comma (no pipe).  Used only to compare the spec's grammar
with the source's. -/
def specSepChars : List Char := ['.', ',']

/-- The four capture groups of one match of the timecode pattern. -/
structure TCMatch where
  g1 : List Char
  g2 : List Char
  g3 : List Char
  g4 : List Char
deriving DecidableEq

/-- One `\d+` group with the greedy (maximal-munch) semantics of the
regex engine: take the maximal run of digits at the current position;
the group must be nonempty.  Returns the captured digits and the rest. -/
def parseGroup (l : List Char) : Option (List Char × List Char) :=
  if l.takeWhile Char.isDigit = [] then none
  else some (l.takeWhile Char.isDigit, l.dropWhile Char.isDigit)

/-- A literal character of the pattern: the next input character must
be exactly `c`. -/
def expectChar (c : Char) (l : List Char) : Option (List Char) :=
  match l with
  | [] => none
  | x :: r => if x = c then some r else none

/-- The separator character class of the pattern: the next input
character must belong to `seps`. -/
def expectSep (seps : List Char) (l : List Char) : Option (Char × List Char) :=
  match l with
  | [] => none
  | x :: r => if x ∈ seps then some (x, r) else none

/-- One anchored match attempt of `(\d+):(\d+):(\d+)[seps](\d+)` at the
head of `l`, with the greedy semantics of the regex engine: each `\d+`
group takes the maximal run of digits at its position, each literal
then has to follow.  Returns the captured groups. -/
def matchAt (seps : List Char) (l : List Char) : Option TCMatch :=
  (parseGroup l).bind fun (d1, r1) =>
  (expectChar ':' r1).bind fun r2 =>
  (parseGroup r2).bind fun (d2, r3) =>
  (expectChar ':' r3).bind fun r4 =>
  (parseGroup r4).bind fun (d3, r5) =>
  (expectSep seps r5).bind fun (_, r6) =>
  (parseGroup r6).bind fun (d4, _) =>
  some ⟨d1, d2, d3, d4⟩

/-- The first (leftmost) match of the pattern in `l`, as returned by
`re.findall(expr, time)[0]`: try a match attempt at every start
position, left to right. -/
def findFirst (seps : List Char) : List Char → Option TCMatch
  | [] => none
  | c :: rest =>
    match matchAt seps (c :: rest) with
    | some m => some m
    | none => findFirst seps rest

/-- Numeric value of a digit string, as Python's `int` / `float` of a
group of `\d+` (e.g. `int("007") = 7`). -/
def digitsVal (l : List Char) : ℕ :=
  l.foldl (fun acc c => 10 * acc + (c.toNat - 48)) 0

/-- Seconds value of a match, source lines 77-80:
`3600*int(g1) + 60*int(g2) + int(g3) + float(g4)/(10**len(g4))`. -/
def tcVal (m : TCMatch) : ℚ :=
  3600 * (digitsVal m.g1 : ℚ) + 60 * (digitsVal m.g2 : ℚ)
    + (digitsVal m.g3 : ℚ) + (digitsVal m.g4 : ℚ) / 10 ^ m.g4.length

/-- Source lines 72-73: if the string contains neither `,` nor `.`,
append `.0`. -/
def amend (l : List Char) : List Char :=
  if ¬ (',' ∈ l) ∧ ¬ ('.' ∈ l) then l ++ ['.', '0'] else l

/-- The string branch of `cvsecs` (source lines 71-80).  `none` models
the unguarded `IndexError` that `re.findall(expr, time)[0]` raises when
the match list is empty; there is no typed-error path in the source. -/
def cvsecsStr (s : String) : Option ℚ :=
  (findFirst sepChars (amend s.data)).map tcVal

/-- The input shapes accepted by `cvsecs`: a number, a 2-tuple
`(min, sec)`, a 3-tuple `(hr, min, sec)`, or a string. -/
inductive TimeValue where
  | num (x : ℚ)
  | pair (m s : ℚ)
  | triple (h m s : ℚ)
  | str (s : String)

/-- `cvsecs` (source lines 59-90).  The tuple branches set
`hr, mn, sec` from the components (with `hr = 0` for a 2-tuple) and
return `3600*hr + 60*mn + sec`; a non-string non-tuple is returned
unchanged. -/
def cvsecs : TimeValue → Option ℚ
  | .str s => cvsecsStr s
  | .triple hr mn sec => some (3600 * hr + 60 * mn + sec)
  | .pair mn sec => some (3600 * 0 + 60 * mn + sec)
  | .num x => some x

/-! ## Declarative characterisation of a pattern match

`IsSplit seps l m` says: `l` decomposes, from its very first character,
as four nonempty digit groups separated by `:`, `:`, and a separator
from `seps`, with the fourth group maximal (what follows it is empty or
a non-digit).  This is the mathematical reading of one anchored greedy
match of `(\d+):(\d+):(\d+)[seps](\d+)`. -/
def IsSplit (seps : List Char) (l : List Char) (m : TCMatch) : Prop :=
  ∃ sep rest,
    l = m.g1 ++ ':' :: (m.g2 ++ ':' :: (m.g3 ++ sep :: (m.g4 ++ rest))) ∧
    m.g1 ≠ [] ∧ m.g2 ≠ [] ∧ m.g3 ≠ [] ∧ m.g4 ≠ [] ∧
    (∀ c ∈ m.g1, c.isDigit = true) ∧ (∀ c ∈ m.g2, c.isDigit = true) ∧
    (∀ c ∈ m.g3, c.isDigit = true) ∧ (∀ c ∈ m.g4, c.isDigit = true) ∧
    sep ∈ seps ∧
    (rest = [] ∨ ∃ c r, rest = c :: r ∧ c.isDigit = false)

/-- `LeftmostSplit seps l m`: the pattern matches at some position `i`
of `l` with groups `m`, and at no earlier position — i.e. `m` is the
first match in `l`. -/
def LeftmostSplit (seps : List Char) (l : List Char) (m : TCMatch) : Prop :=
  ∃ i, IsSplit seps (l.drop i) m ∧
    ∀ j < i, ∀ m2, ¬ IsSplit seps (l.drop j) m2

/-! ## Span lemmas -/

lemma takeWhile_all_append_cons (p : Char → Bool) (l1 : List Char) (c : Char)
    (l2 : List Char) (h1 : ∀ a ∈ l1, p a = true) (hc : p c = false) :
    (l1 ++ c :: l2).takeWhile p = l1 := by
  rw [List.takeWhile_append_of_pos h1,
      List.takeWhile_cons_of_neg (by simp [hc]), List.append_nil]

lemma dropWhile_all_append_cons (p : Char → Bool) (l1 : List Char) (c : Char)
    (l2 : List Char) (h1 : ∀ a ∈ l1, p a = true) (hc : p c = false) :
    (l1 ++ c :: l2).dropWhile p = c :: l2 := by
  rw [List.dropWhile_append_of_pos h1, List.dropWhile_cons_of_neg (by simp [hc])]

lemma dropWhile_cases (p : Char → Bool) (l : List Char) :
    l.dropWhile p = [] ∨ ∃ c r, l.dropWhile p = c :: r ∧ p c = false := by
  induction l with
  | nil => exact Or.inl rfl
  | cons a t ih =>
    by_cases h : p a
    · rw [List.dropWhile_cons_of_pos h]; exact ih
    · exact Or.inr ⟨a, t, List.dropWhile_cons_of_neg h, by simpa using h⟩

lemma mem_takeWhile_digit (l : List Char) :
    ∀ a ∈ l.takeWhile Char.isDigit, a.isDigit = true := by
  induction l with
  | nil => intro a ha; simp [List.takeWhile] at ha
  | cons c t ih =>
    intro a ha
    by_cases h : c.isDigit
    · rw [List.takeWhile_cons_of_pos h] at ha
      rcases List.mem_cons.mp ha with h1 | h2
      · rw [h1]; exact h
      · exact ih a h2
    · rw [List.takeWhile_cons_of_neg h] at ha; simp at ha

/-! ## `parseGroup`, `expectChar`, `expectSep`: computation and inversion -/

lemma parseGroup_eq (d : List Char) (c : Char) (r : List Char)
    (hd : d ≠ []) (hdig : ∀ a ∈ d, a.isDigit = true) (hc : c.isDigit = false) :
    parseGroup (d ++ c :: r) = some (d, c :: r) := by
  unfold parseGroup
  rw [takeWhile_all_append_cons _ _ _ _ hdig hc,
      dropWhile_all_append_cons _ _ _ _ hdig hc, if_neg hd]

lemma parseGroup_eq_all (d : List Char) (hd : d ≠ [])
    (hdig : ∀ a ∈ d, a.isDigit = true) :
    parseGroup d = some (d, []) := by
  unfold parseGroup
  rw [List.takeWhile_eq_self_iff.mpr hdig, List.dropWhile_eq_nil_iff.mpr hdig,
      if_neg hd]

lemma parseGroup_inv (l d r : List Char) (h : parseGroup l = some (d, r)) :
    l = d ++ r ∧ d ≠ [] ∧ (∀ a ∈ d, a.isDigit = true) ∧
      r = l.dropWhile Char.isDigit := by
  unfold parseGroup at h
  by_cases he : l.takeWhile Char.isDigit = []
  · rw [if_pos he] at h; exact absurd h (by simp)
  · rw [if_neg he] at h
    obtain ⟨hd, hr⟩ := Prod.mk.injEq .. ▸ Option.some.injEq .. ▸ h
    refine ⟨?_, ?_, ?_, ?_⟩
    · rw [← hd, ← hr]; exact (List.takeWhile_append_dropWhile ..).symm
    · rw [← hd]; exact he
    · rw [← hd]; exact mem_takeWhile_digit l
    · exact hr.symm

lemma expectChar_inv (c : Char) (l r : List Char) (h : expectChar c l = some r) :
    l = c :: r := by
  match l with
  | [] => exact absurd h (by simp [expectChar])
  | x :: t =>
    have h2 : (if x = c then some t else none) = some r := h
    by_cases hx : x = c
    · rw [if_pos hx] at h2
      injection h2 with h3
      rw [hx, h3]
    · rw [if_neg hx] at h2; exact absurd h2 (by simp)

lemma expectSep_inv (seps : List Char) (l : List Char) (sep : Char)
    (r : List Char) (h : expectSep seps l = some (sep, r)) :
    l = sep :: r ∧ sep ∈ seps := by
  match l with
  | [] => exact absurd h (by simp [expectSep])
  | x :: t =>
    have h2 : (if x ∈ seps then some (x, t) else none) = some (sep, r) := h
    by_cases hx : x ∈ seps
    · rw [if_pos hx] at h2
      injection h2 with h3
      have hx2 : x = sep := congrArg Prod.fst h3
      have ht : t = r := congrArg Prod.snd h3
      exact ⟨by rw [hx2, ht], hx2 ▸ hx⟩
    · rw [if_neg hx] at h2; exact absurd h2 (by simp)

lemma expectChar_eq (c : Char) (r : List Char) : expectChar c (c :: r) = some r := by
  simp [expectChar]

lemma expectSep_eq (seps : List Char) (sep : Char) (r : List Char)
    (h : sep ∈ seps) : expectSep seps (sep :: r) = some (sep, r) := by
  simp [expectSep, h]

/-! ## `matchAt` agrees with the declarative `IsSplit` -/

lemma matchAt_of_split (seps : List Char) (l : List Char) (m : TCMatch)
    (hseps : ∀ c ∈ seps, c.isDigit = false)
    (h : IsSplit seps l m) : matchAt seps l = some m := by
  obtain ⟨sep, rest, heq, h1, h2, h3, h4, hd1, hd2, hd3, hd4, hsep, hrest⟩ := h
  have hcolon : (':').isDigit = false := by decide
  have hsepd : sep.isDigit = false := hseps sep hsep
  subst heq
  rcases hrest with hnil | ⟨c, r, hrest, hcdig⟩
  · subst hnil
    simp only [matchAt, List.append_nil,
      parseGroup_eq m.g1 ':' _ h1 hd1 hcolon,
      expectChar_eq,
      parseGroup_eq m.g2 ':' _ h2 hd2 hcolon,
      parseGroup_eq m.g3 sep _ h3 hd3 hsepd,
      expectSep_eq seps sep _ hsep,
      parseGroup_eq_all m.g4 h4 hd4,
      Option.some_bind]
  · subst hrest
    simp only [matchAt,
      parseGroup_eq m.g1 ':' _ h1 hd1 hcolon,
      expectChar_eq,
      parseGroup_eq m.g2 ':' _ h2 hd2 hcolon,
      parseGroup_eq m.g3 sep _ h3 hd3 hsepd,
      expectSep_eq seps sep _ hsep,
      parseGroup_eq m.g4 c r h4 hd4 hcdig,
      Option.some_bind]

lemma split_of_matchAt (seps : List Char) (l : List Char) (m : TCMatch)
    (h : matchAt seps l = some m) : IsSplit seps l m := by
  unfold matchAt at h
  simp only [Option.bind_eq_some] at h
  obtain ⟨⟨d1, r1⟩, hp1, r2, hc1, ⟨d2, r3⟩, hp2, r4, hc2, ⟨d3, r5⟩, hp3,
    ⟨sep, r6⟩, hs, ⟨d4, r7⟩, hp4, hm⟩ := h
  obtain ⟨he1, hne1, hdig1, _⟩ := parseGroup_inv l d1 r1 hp1
  have hr1 := expectChar_inv ':' r1 r2 hc1
  obtain ⟨he2, hne2, hdig2, _⟩ := parseGroup_inv r2 d2 r3 hp2
  have hr3 := expectChar_inv ':' r3 r4 hc2
  obtain ⟨he3, hne3, hdig3, _⟩ := parseGroup_inv r4 d3 r5 hp3
  obtain ⟨hr5, hsep⟩ := expectSep_inv seps r5 sep r6 hs
  obtain ⟨he4, hne4, hdig4, hr7⟩ := parseGroup_inv r6 d4 r7 hp4
  injection hm with hm2
  subst hm2
  refine ⟨sep, r7, ?_, hne1, hne2, hne3, hne4,
    hdig1, hdig2, hdig3, hdig4, hsep, ?_⟩
  · rw [he1, hr1, he2, hr3, he3, hr5, he4]
  · rw [hr7]
    exact dropWhile_cases Char.isDigit r6

lemma matchAt_nil (seps : List Char) : matchAt seps [] = none := rfl

lemma matchAt_cons_nondigit (seps : List Char) (c : Char) (t : List Char)
    (hc : c.isDigit = false) : matchAt seps (c :: t) = none := by
  unfold matchAt
  have hpg : parseGroup (c :: t) = none := by
    unfold parseGroup
    rw [List.takeWhile_cons_of_neg (by simp [hc]), if_pos rfl]
  rw [hpg]
  rfl

/-! ## `findFirst` returns the leftmost match -/

lemma findFirst_of (seps : List Char) (l : List Char) (i : ℕ) (m : TCMatch)
    (h1 : matchAt seps (l.drop i) = some m)
    (h2 : ∀ j < i, matchAt seps (l.drop j) = none) :
    findFirst seps l = some m := by
  induction i generalizing l with
  | zero =>
    rw [List.drop_zero] at h1
    match l with
    | [] => rw [matchAt_nil] at h1; exact absurd h1 (by simp)
    | c :: t =>
      unfold findFirst
      rw [h1]
  | succ n ih =>
    match l with
    | [] =>
      rw [List.drop_nil, matchAt_nil] at h1
      exact absurd h1 (by simp)
    | c :: t =>
      have h0 := h2 0 (Nat.succ_pos n)
      rw [List.drop_zero] at h0
      unfold findFirst
      rw [h0]
      exact ih t (by simpa using h1)
        (fun j hj => by simpa using h2 (j + 1) (Nat.succ_lt_succ hj))

lemma findFirst_eq_of_leftmost (seps : List Char)
    (hseps : ∀ c ∈ seps, c.isDigit = false) (l : List Char) (m : TCMatch)
    (h : LeftmostSplit seps l m) : findFirst seps l = some m := by
  obtain ⟨i, hi, hj⟩ := h
  refine findFirst_of seps l i m (matchAt_of_split _ _ _ hseps hi) ?_
  intro j hji
  cases hm : matchAt seps (l.drop j) with
  | none => rfl
  | some m2 => exact absurd (split_of_matchAt _ _ _ hm) (hj j hji m2)

/-! ## Shape lemmas: a digit-free prefix is skipped, a match right after
it is the leftmost one -/

lemma isSplit_shape (seps : List Char) (d1 d2 d3 d4 rest : List Char) (sep : Char)
    (h1 : d1 ≠ []) (h2 : d2 ≠ []) (h3 : d3 ≠ []) (h4 : d4 ≠ [])
    (hd1 : ∀ c ∈ d1, c.isDigit = true) (hd2 : ∀ c ∈ d2, c.isDigit = true)
    (hd3 : ∀ c ∈ d3, c.isDigit = true) (hd4 : ∀ c ∈ d4, c.isDigit = true)
    (hsep : sep ∈ seps)
    (hrest : rest = [] ∨ ∃ c r, rest = c :: r ∧ c.isDigit = false) :
    IsSplit seps (d1 ++ ':' :: (d2 ++ ':' :: (d3 ++ sep :: (d4 ++ rest))))
      ⟨d1, d2, d3, d4⟩ :=
  ⟨sep, rest, rfl, h1, h2, h3, h4, hd1, hd2, hd3, hd4, hsep, hrest⟩

lemma isSplit_head_digit (seps : List Char) (l : List Char) (m : TCMatch)
    (h : IsSplit seps l m) : ∃ c t, l = c :: t ∧ c.isDigit = true := by
  obtain ⟨sep, rest, heq, h1, -, -, -, hd1, -⟩ := h
  match hg : m.g1 with
  | [] => exact absurd hg h1
  | a :: t1 =>
    rw [hg] at heq
    exact ⟨a, t1 ++ ':' :: (m.g2 ++ ':' :: (m.g3 ++ sep :: (m.g4 ++ rest))),
      by rw [heq, List.cons_append],
      hd1 a (by rw [hg]; exact List.mem_cons_self a t1)⟩

lemma leftmost_shape (seps : List Char) (pre d1 d2 d3 d4 post : List Char)
    (sep : Char) (hpre : ∀ c ∈ pre, c.isDigit = false)
    (h1 : d1 ≠ []) (h2 : d2 ≠ []) (h3 : d3 ≠ []) (h4 : d4 ≠ [])
    (hd1 : ∀ c ∈ d1, c.isDigit = true) (hd2 : ∀ c ∈ d2, c.isDigit = true)
    (hd3 : ∀ c ∈ d3, c.isDigit = true) (hd4 : ∀ c ∈ d4, c.isDigit = true)
    (hsep : sep ∈ seps)
    (hpost : post = [] ∨ ∃ c r, post = c :: r ∧ c.isDigit = false) :
    LeftmostSplit seps
      (pre ++ (d1 ++ ':' :: (d2 ++ ':' :: (d3 ++ sep :: (d4 ++ post)))))
      ⟨d1, d2, d3, d4⟩ := by
  refine ⟨pre.length, ?_, ?_⟩
  · rw [List.drop_left]
    exact isSplit_shape seps d1 d2 d3 d4 post sep h1 h2 h3 h4
      hd1 hd2 hd3 hd4 hsep hpost
  · intro j hj m2 hsp
    rw [List.drop_append_of_le_length (le_of_lt hj)] at hsp
    obtain ⟨c, t, heq, hcdig⟩ := isSplit_head_digit _ _ _ hsp
    rw [List.drop_eq_getElem_cons hj, List.cons_append] at heq
    injection heq with hc _
    rw [← hc] at hcdig
    have hmem : pre[j] ∈ pre.drop j := by
      rw [List.drop_eq_getElem_cons hj]
      exact List.mem_cons_self ..
    have := hpre (pre[j]) (List.mem_of_mem_drop hmem)
    rw [this] at hcdig
    exact Bool.false_ne_true hcdig

/-! ## The string branch of `cvsecs`, via the leftmost match -/

lemma sepChars_nondigit : ∀ c ∈ sepChars, c.isDigit = false := by decide

/-- Wherever the leftmost match of the (possibly `.0`-amended) input is,
the string branch returns its seconds value. -/
lemma cvsecsStr_leftmost (s : String) (m : TCMatch)
    (h : LeftmostSplit sepChars (amend s.data) m) :
    cvsecsStr s = some (tcVal m) := by
  unfold cvsecsStr
  rw [findFirst_eq_of_leftmost sepChars sepChars_nondigit _ m h]
  rfl

/-- Amending a list that ends in an acceptable tail keeps the tail
acceptable: used to push the appended `['.', '0']` into the `post` part
of a match shape. -/
lemma post_amend_ok (post : List Char)
    (hpost : post = [] ∨ ∃ c r, post = c :: r ∧ c.isDigit = false) :
    post ++ ['.', '0'] = [] ∨
      ∃ c r, post ++ ['.', '0'] = c :: r ∧ c.isDigit = false := by
  rcases hpost with hnil | ⟨c, r, heq, hc⟩
  · subst hnil
    exact Or.inr ⟨'.', ['0'], rfl, by decide⟩
  · subst heq
    exact Or.inr ⟨c, r ++ ['.', '0'], List.cons_append .., hc⟩

/-- The main computation lemma for the string branch: a string that is a
digit-free prefix, then four digit groups separated by `:`, `:` and a
separator from the class `[,|.]`, then a tail not starting with a digit,
evaluates to the weighted sum of the groups — whatever the amendment
step does to it. -/
lemma cvsecs_shape (pre d1 d2 d3 d4 post : List Char) (sep : Char)
    (hpre : ∀ c ∈ pre, c.isDigit = false)
    (h1 : d1 ≠ []) (h2 : d2 ≠ []) (h3 : d3 ≠ []) (h4 : d4 ≠ [])
    (hd1 : ∀ c ∈ d1, c.isDigit = true) (hd2 : ∀ c ∈ d2, c.isDigit = true)
    (hd3 : ∀ c ∈ d3, c.isDigit = true) (hd4 : ∀ c ∈ d4, c.isDigit = true)
    (hsep : sep ∈ sepChars)
    (hpost : post = [] ∨ ∃ c r, post = c :: r ∧ c.isDigit = false) :
    cvsecs (.str ⟨pre ++ (d1 ++ ':' :: (d2 ++ ':' :: (d3 ++ sep :: (d4 ++ post))))⟩)
      = some (3600 * (digitsVal d1 : ℚ) + 60 * (digitsVal d2 : ℚ)
          + (digitsVal d3 : ℚ) + (digitsVal d4 : ℚ) / 10 ^ d4.length) := by
  show cvsecsStr _ = _
  have hval : (3600 * (digitsVal d1 : ℚ) + 60 * (digitsVal d2 : ℚ)
      + (digitsVal d3 : ℚ) + (digitsVal d4 : ℚ) / 10 ^ d4.length)
      = tcVal ⟨d1, d2, d3, d4⟩ := rfl
  rw [hval]
  unfold cvsecsStr
  have hdata : (String.mk (pre ++ (d1 ++ ':' :: (d2 ++ ':' :: (d3 ++ sep :: (d4 ++ post)))))).data
      = pre ++ (d1 ++ ':' :: (d2 ++ ':' :: (d3 ++ sep :: (d4 ++ post)))) := rfl
  rw [hdata]
  unfold amend
  split
  · have hassoc : (pre ++ (d1 ++ ':' :: (d2 ++ ':' :: (d3 ++ sep :: (d4 ++ post))))) ++ ['.', '0']
        = pre ++ (d1 ++ ':' :: (d2 ++ ':' :: (d3 ++ sep :: (d4 ++ (post ++ ['.', '0']))))) := by
      simp [List.append_assoc]
    rw [hassoc, findFirst_eq_of_leftmost sepChars sepChars_nondigit _ _
      (leftmost_shape sepChars pre d1 d2 d3 d4 (post ++ ['.', '0']) sep hpre
        h1 h2 h3 h4 hd1 hd2 hd3 hd4 hsep (post_amend_ok post hpost))]
    rfl
  · rw [findFirst_eq_of_leftmost sepChars sepChars_nondigit _ _
      (leftmost_shape sepChars pre d1 d2 d3 d4 post sep hpre
        h1 h2 h3 h4 hd1 hd2 hd3 hd4 hsep hpost)]
    rfl

/-! ## `subprocess_call` (source lines 26-49)

The child process itself is outside the program: its exit code and the
bytes it wrote to its error stream are inputs of the model.  The
function returns the list of console lines it writes plus an outcome;
`ioError` models `raise IOError(err.decode('utf8'))`, `decodeError`
the `UnicodeDecodeError` Python's strict `bytes.decode('utf8')` raises
on invalid UTF-8 input. -/

/-- Strict UTF-8 decoding of a byte list, as Python's
`bytes.decode('utf8')`: rejects stray continuation bytes, overlong
encodings, surrogate code points and code points above `0x10FFFF`. -/
def utf8Decode : List ℕ → Option (List Char)
  | [] => some []
  | b1 :: rest =>
    if b1 < 0x80 then
      (utf8Decode rest).map (fun cs => Char.ofNat b1 :: cs)
    else if b1 < 0xC2 then none
    else if b1 < 0xE0 then
      match rest with
      | b2 :: rest2 =>
        if 0x80 ≤ b2 ∧ b2 < 0xC0 then
          (utf8Decode rest2).map
            (fun cs => Char.ofNat ((b1 - 0xC0) * 0x40 + (b2 - 0x80)) :: cs)
        else none
      | [] => none
    else if b1 < 0xF0 then
      match rest with
      | b2 :: b3 :: rest2 =>
        if (0x80 ≤ b2 ∧ b2 < 0xC0) ∧ (0x80 ≤ b3 ∧ b3 < 0xC0) ∧
            (b1 = 0xE0 → 0xA0 ≤ b2) ∧ (b1 = 0xED → b2 < 0xA0) then
          (utf8Decode rest2).map (fun cs =>
            Char.ofNat ((b1 - 0xE0) * 0x1000 + (b2 - 0x80) * 0x40 + (b3 - 0x80)) :: cs)
        else none
      | _ => none
    else if b1 < 0xF5 then
      match rest with
      | b2 :: b3 :: b4 :: rest2 =>
        if (0x80 ≤ b2 ∧ b2 < 0xC0) ∧ (0x80 ≤ b3 ∧ b3 < 0xC0) ∧
            (0x80 ≤ b4 ∧ b4 < 0xC0) ∧
            (b1 = 0xF0 → 0x90 ≤ b2) ∧ (b1 = 0xF4 → b2 < 0x90) then
          (utf8Decode rest2).map (fun cs =>
            Char.ofNat ((b1 - 0xF0) * 0x40000 + (b2 - 0x80) * 0x1000
              + (b3 - 0x80) * 0x40 + (b4 - 0x80)) :: cs)
        else none
      | _ => none
    else none

/-- Outcome of `subprocess_call`: normal return, `IOError` with the
decoded error-stream text, or `UnicodeDecodeError` while decoding. -/
inductive ProcOutcome where
  | success
  | ioError (msg : String)
  | decodeError
deriving DecidableEq

/-- `subprocess_call(cmd, verbose, errorprint)` (source lines 26-49),
with the child's exit code and error-stream bytes as inputs.  Returns
the console lines written (via `verbose_print`) and the outcome: on a
nonzero exit code it prints the error line (if `errorprint`) and raises
`IOError(err.decode('utf8'))`; on exit code `0` it prints the success
line (if `verbose`) and returns. -/
def subprocess_call (cmd : List String) (verbose errorprint : Bool)
    (returncode : ℤ) (stderrBytes : List ℕ) : List String × ProcOutcome :=
  let running := if verbose
    then ["\n[MoviePy] Running:\n>>> " ++ String.intercalate (" ") cmd] else []
  if returncode ≠ 0 then
    let lines := running ++
      (if errorprint then ["\n[MoviePy] This command returned an error !"] else [])
    match utf8Decode stderrBytes with
    | some cs => (lines, .ioError (String.mk cs))
    | none => (lines, .decodeError)
  else
    (running ++ (if verbose then ["\n... command successful.\n"] else []),
     .success)

/-! ## The codec/extension registry (source lines 137-156) -/

/-- The value attached to an extension: a media type, and optionally a
list of codec names (the `'codec'` key). -/
structure ExtInfo where
  type : String
  codec : Option (List String)
deriving DecidableEq

/-- `extensions_dict` (source lines 137-150) as an association list in
the dictionary's insertion (= iteration) order; the five image entries
are appended by the loop at lines 149-150. -/
def extensions_dict : List (String × ExtInfo) :=
  [("mp4", ⟨"video", some ["libx264", "libmpeg4"]⟩),
   ("ogv", ⟨"video", some ["libtheora"]⟩),
   ("webm", ⟨"video", some ["libvpx"]⟩),
   ("avi", ⟨"video", none⟩),
   ("mov", ⟨"video", none⟩),
   ("ogg", ⟨"audio", some ["libvorbis"]⟩),
   ("mp3", ⟨"audio", some ["libmp3lame"]⟩),
   ("wav", ⟨"audio", some ["pcm_s16le", "pcm_s32le"]⟩),
   ("m4a", ⟨"audio", some ["libfdk_aac"]⟩),
   ("jpg", ⟨"image", none⟩),
   ("jpeg", ⟨"image", none⟩),
   ("png", ⟨"image", none⟩),
   ("bmp", ⟨"image", none⟩),
   ("tiff", ⟨"image", none⟩)]

/-- `('codec' in infos) and (codec in infos['codec'])` (source line 154). -/
def hasCodec (info : ExtInfo) (c : String) : Bool :=
  match info.codec with
  | some cs => cs.contains c
  | none => false

/-- `find_extension` generalised over the table it scans (the source
iterates `extensions_dict.items()`): first entry whose codec list
contains `c`, `none` modelling the bare `ValueError` of line 156. -/
def findExtIn (table : List (String × ExtInfo)) (c : String) : Option String :=
  (table.find? (fun p => hasCodec p.2 c)).map Prod.fst

/-- `find_extension` (source lines 152-156). -/
def find_extension (c : String) : Option String := findExtIn extensions_dict c

/-! ## Registry lemmas -/

lemma find?_first {α : Type} (p : α → Bool) (l : List α) (x : α)
    (h : l.find? p = some x) :
    ∃ l1 l2, l = l1 ++ x :: l2 ∧ p x = true ∧ ∀ y ∈ l1, p y = false := by
  induction l with
  | nil => simp [List.find?] at h
  | cons a t ih =>
    by_cases ha : p a
    · rw [List.find?_cons_of_pos _ ha] at h
      injection h with h2
      exact ⟨[], t, by simp [h2], h2 ▸ ha, by simp⟩
    · rw [List.find?_cons_of_neg _ ha] at h
      obtain ⟨l1, l2, he, hx, hall⟩ := ih h
      refine ⟨a :: l1, l2, by rw [List.cons_append, he], hx, ?_⟩
      intro y hy
      rcases List.mem_cons.mp hy with h1 | h2
      · rw [h1]; simpa using ha
      · exact hall y h2

lemma pairwise_or {α : Type} {R : α → α → Prop} {l : List α} (h : l.Pairwise R)
    {p q : α} (hp : p ∈ l) (hq : q ∈ l) : p = q ∨ R p q ∨ R q p := by
  induction l with
  | nil => simp at hp
  | cons a t ih =>
    obtain ⟨hr, hpw⟩ := List.pairwise_cons.mp h
    rcases List.mem_cons.mp hp with hp1 | hp2 <;>
      rcases List.mem_cons.mp hq with hq1 | hq2
    · exact Or.inl (hp1.trans hq1.symm)
    · exact Or.inr (Or.inl (hp1 ▸ hr q hq2))
    · exact Or.inr (Or.inr (hq1 ▸ hr p hp2))
    · exact ih hpw hp2 hq2

lemma hasCodec_iff (info : ExtInfo) (c : String) :
    hasCodec info c = true ↔ c ∈ info.codec.getD [] := by
  match info with
  | ⟨t, none⟩ => simp [hasCodec]
  | ⟨t, some cs⟩ => simp [hasCodec, List.contains, List.elem_iff]

/-- In the shipped table the codec lists of distinct entries are
disjoint. -/
lemma extensions_codecs_disjoint :
    extensions_dict.Pairwise (fun p q =>
      ∀ c ∈ p.2.codec.getD [], c ∉ q.2.codec.getD []) := by decide

lemma tcVal_nonneg (m : TCMatch) : 0 ≤ tcVal m := by
  unfold tcVal
  positivity

/-- Packaged form of `IsSplit` for concrete inputs whose match ends the
string (`rest = []`), with the decidable side conditions grouped. -/
lemma isSplit_of_concrete (seps : List Char) (l : List Char) (m : TCMatch)
    (sep : Char)
    (heq : l = m.g1 ++ ':' :: (m.g2 ++ ':' :: (m.g3 ++ sep :: (m.g4 ++ []))))
    (hside : (m.g1 ≠ [] ∧ m.g2 ≠ [] ∧ m.g3 ≠ [] ∧ m.g4 ≠ []) ∧
      ((∀ c ∈ m.g1, c.isDigit = true) ∧ (∀ c ∈ m.g2, c.isDigit = true) ∧
        (∀ c ∈ m.g3, c.isDigit = true) ∧ (∀ c ∈ m.g4, c.isDigit = true)) ∧
      sep ∈ seps) :
    IsSplit seps l m :=
  ⟨sep, [], heq, hside.1.1, hside.1.2.1, hside.1.2.2.1, hside.1.2.2.2,
    hside.2.1.1, hside.2.1.2.1, hside.2.1.2.2.1, hside.2.1.2.2.2,
    hside.2.2, Or.inl rfl⟩

/-- Evaluates `tcVal` once the group values and the fraction length are
computed. -/
lemma tcVal_eval (m : TCMatch) (a b c d k : ℕ)
    (ha : digitsVal m.g1 = a) (hb : digitsVal m.g2 = b)
    (hc : digitsVal m.g3 = c) (hd : digitsVal m.g4 = d)
    (hk : m.g4.length = k) :
    tcVal m = 3600 * (a : ℚ) + 60 * (b : ℚ) + (c : ℚ) + (d : ℚ) / 10 ^ k := by
  rw [tcVal, ha, hb, hc, hd, hk]

/-! # The claims -/

/-- C1: the claim says a textual input not matching the grammar (after
amendment) must fail with a typed `MalformedTimecode` error.  The code
has no such error: on `"abc"` the match list is empty and
`re.findall(expr, time)[0]` raises an unguarded `IndexError` (modelled
by `none`), and on `"01:01:33|5"` the code does not fail at all but
returns `3693.5`, because the separator class `[,|.]` of the source
regex also accepts the pipe character. -/
theorem cvsecs_text_error_behavior :
    cvsecs (.str ("abc")) = none
    ∧ cvsecs (.str ("01:01:33|5")) = some (7387 / 2) := by
  constructor
  · show (findFirst sepChars (amend ("abc").data)).map tcVal = none
    rw [show findFirst sepChars (amend ("abc").data) = none from by decide]
    rfl
  · show (findFirst sepChars (amend ("01:01:33|5").data)).map tcVal
      = some (7387 / 2)
    rw [show findFirst sepChars (amend ("01:01:33|5").data)
        = some ⟨['0', '1'], ['0', '1'], ['3', '3'], ['5']⟩ from by decide,
      Option.map_some',
      tcVal_eval _ 1 1 33 5 1 (by decide) (by decide) (by decide) (by decide)
        (by decide)]
    norm_num

/-- C2 (counterexample): on `"0:0:0|1 1:2:3.5"` the first match of the
spec's grammar `(\d+):(\d+):(\d+)[.,](\d+)` is `1:2:3.5`, whose value
is `3723.5`, but `cvsecs` returns `0.1`: the source's separator class
`[,|.]` also matches the pipe, and that match comes first. -/
theorem cvsecs_text_grammar_cex :
    LeftmostSplit specSepChars (amend ("0:0:0|1 1:2:3.5").data)
        ⟨['1'], ['2'], ['3'], ['5']⟩
    ∧ tcVal ⟨['1'], ['2'], ['3'], ['5']⟩ = 7447 / 2
    ∧ cvsecs (.str ("0:0:0|1 1:2:3.5")) = some (1 / 10)
    ∧ (1 / 10 : ℚ) ≠ 7447 / 2 := by
  refine ⟨⟨8, isSplit_of_concrete specSepChars _ _ '.' (by decide) (by decide),
    ?_⟩, ?_, ?_, by norm_num⟩
  · intro j hj m2 hsp
    have hm := matchAt_of_split specSepChars _ m2 (by decide) hsp
    have hall : ∀ j2 < 8,
        matchAt specSepChars ((amend ("0:0:0|1 1:2:3.5").data).drop j2)
          = none := by
      decide
    rw [hall j hj] at hm
    exact absurd hm (by simp)
  · rw [tcVal_eval _ 1 2 3 5 1 (by decide) (by decide) (by decide) (by decide)
      (by decide)]
    norm_num
  · show (findFirst sepChars (amend ("0:0:0|1 1:2:3.5").data)).map tcVal
      = some (1 / 10)
    rw [show findFirst sepChars (amend ("0:0:0|1 1:2:3.5").data)
        = some ⟨['0'], ['0'], ['0'], ['1']⟩ from by decide,
      Option.map_some',
      tcVal_eval _ 0 0 0 1 1 (by decide) (by decide) (by decide) (by decide)
        (by decide)]
    norm_num

/-- C2 (amended): for every string whose amended form matches the
source's pattern `(\d+):(\d+):(\d+)[,|.](\d+)` (the pipe is accepted as
a separator too), `cvsecs` returns
`3600*H + 60*M + S + F/10^len(F)` computed from the first match. -/
theorem cvsecs_text_first_match (s : String) (m : TCMatch)
    (h : LeftmostSplit sepChars (amend s.data) m) :
    cvsecs (.str s) = some (3600 * (digitsVal m.g1 : ℚ)
      + 60 * (digitsVal m.g2 : ℚ) + (digitsVal m.g3 : ℚ)
      + (digitsVal m.g4 : ℚ) / 10 ^ m.g4.length) :=
  cvsecsStr_leftmost s m h

theorem cvsecs_text_first_match_witness :
    cvsecs (.str ("01:01:33.045")) = some (738609 / 200) := by
  have h := cvsecs_text_first_match ("01:01:33.045")
    ⟨['0', '1'], ['0', '1'], ['3', '3'], ['0', '4', '5']⟩
    ⟨0, isSplit_of_concrete sepChars _ _ '.' (by decide) (by decide),
      fun j hj m2 => absurd hj (Nat.not_lt_zero j)⟩
  rw [h,
    show digitsVal ['0', '1'] = 1 from by decide,
    show digitsVal ['3', '3'] = 33 from by decide,
    show digitsVal ['0', '4', '5'] = 45 from by decide,
    show (['0', '4', '5'] : List Char).length = 3 from rfl]
  norm_num

/-- C3: `subprocess_call` raises `IOError` iff the child's exit code is
nonzero, the payload is exactly the error-stream bytes decoded as
UTF-8, and a zero exit code returns successfully. -/
theorem subprocess_call_exit_policy (cmd : List String)
    (verbose errorprint : Bool) (rc : ℤ) (bs : List ℕ) (cs : List Char)
    (hdec : utf8Decode bs = some cs) :
    ((∃ e, (subprocess_call cmd verbose errorprint rc bs).2 = .ioError e)
        ↔ rc ≠ 0)
    ∧ (∀ e, (subprocess_call cmd verbose errorprint rc bs).2 = .ioError e
        → e = String.mk cs)
    ∧ (rc = 0 → (subprocess_call cmd verbose errorprint rc bs).2 = .success) := by
  by_cases h : rc = 0
  · simp [subprocess_call, h]
  · simp [subprocess_call, h, hdec]

theorem subprocess_call_exit_policy_witness :
    ((∃ e, (subprocess_call [] true true 1 [98, 111, 111, 109]).2 = .ioError e)
        ↔ (1 : ℤ) ≠ 0)
    ∧ (∀ e, (subprocess_call [] true true 1 [98, 111, 111, 109]).2 = .ioError e
        → e = String.mk ['b', 'o', 'o', 'm'])
    ∧ ((1 : ℤ) = 0 →
        (subprocess_call [] true true 1 [98, 111, 111, 109]).2 = .success) :=
  subprocess_call_exit_policy [] true true 1 [98, 111, 111, 109]
    ['b', 'o', 'o', 'm'] (by decide)

/-- C4: a 2-tuple `(m, s)` gives `60*m + s`, a 3-tuple `(h, m, s)`
gives `3600*h + 60*m + s`; in particular `(1, 21.5)` gives `81.5` and
`(1, 1, 2)` gives `3662`. -/
theorem cvsecs_tuple :
    (∀ mn sec : ℚ, cvsecs (.pair mn sec) = some (60 * mn + sec))
    ∧ (∀ hr mn sec : ℚ,
        cvsecs (.triple hr mn sec) = some (3600 * hr + 60 * mn + sec))
    ∧ cvsecs (.pair 1 (43 / 2)) = some (163 / 2)
    ∧ cvsecs (.triple 1 1 2) = some 3662 := by
  refine ⟨fun mn sec => ?_, fun hr mn sec => rfl, by norm_num [cvsecs], by norm_num [cvsecs]⟩
  unfold cvsecs
  norm_num

/-- C5: `find_extension` returns the first extension in the registry's
iteration order whose entry's codec list contains the codec; in
particular `libx264 ↦ mp4`, and a codec in no entry's list yields the
`UnknownCodec` failure (the bare `ValueError` of line 156, modelled by
`none`). -/
theorem find_extension_spec :
    (∀ c e, find_extension c = some e →
      ∃ l1 info l2, extensions_dict = l1 ++ (e, info) :: l2 ∧
        hasCodec info c = true ∧ ∀ p ∈ l1, hasCodec p.2 c = false)
    ∧ (∀ c, find_extension c = none ↔
        ∀ p ∈ extensions_dict, hasCodec p.2 c = false)
    ∧ find_extension ("libx264") = some ("mp4")
    ∧ find_extension ("no-such-codec") = none := by
  refine ⟨?_, ?_, by decide, by decide⟩
  · intro c e h
    unfold find_extension findExtIn at h
    obtain ⟨x, hfind, hfst⟩ := Option.map_eq_some'.mp h
    obtain ⟨l1, l2, he, hx, hall⟩ :=
      find?_first (fun p => hasCodec p.2 c) extensions_dict x hfind
    refine ⟨l1, x.2, l2, ?_, hx, fun p hp => hall p hp⟩
    rw [he, ← hfst]
  · intro c
    unfold find_extension findExtIn
    rw [Option.map_eq_none']
    rw [List.find?_eq_none]
    constructor
    · intro h p hp
      exact Bool.eq_false_iff.mpr (h p hp)
    · intro h p hp
      rw [h p hp]
      simp

theorem find_extension_spec_witness :
    ∃ l1 info l2, extensions_dict = l1 ++ (("mp4" : String), info) :: l2 ∧
      hasCodec info ("libx264") = true ∧
      ∀ p ∈ l1, hasCodec p.2 ("libx264") = false :=
  find_extension_spec.1 ("libx264") ("mp4") find_extension_spec.2.2.1

/-- C6 (counterexample): the claim asserts a non-negative result for
every well-formed input, but a 2-tuple with a negative component is
well-formed and gives a negative result: `cvsecs((-5, 0)) = -300`. -/
theorem cvsecs_nonneg_cex :
    cvsecs (.pair (-5) 0) = some (-300) ∧ ¬ (0 ≤ (-300 : ℚ)) := by
  constructor
  · unfold cvsecs
    norm_num
  · norm_num

/-- C6 (amended): the result is non-negative for every textual input
matching the pattern, and for every tuple input whose components are
all non-negative. -/
theorem cvsecs_nonneg :
    (∀ s m, LeftmostSplit sepChars (amend s.data) m →
      ∃ q, cvsecs (.str s) = some q ∧ 0 ≤ q)
    ∧ (∀ mn sec : ℚ, 0 ≤ mn → 0 ≤ sec →
        ∃ q, cvsecs (.pair mn sec) = some q ∧ 0 ≤ q)
    ∧ (∀ hr mn sec : ℚ, 0 ≤ hr → 0 ≤ mn → 0 ≤ sec →
        ∃ q, cvsecs (.triple hr mn sec) = some q ∧ 0 ≤ q) := by
  refine ⟨?_, ?_, ?_⟩
  · intro s m h
    exact ⟨tcVal m, cvsecsStr_leftmost s m h, tcVal_nonneg m⟩
  · intro mn sec h1 h2
    exact ⟨3600 * 0 + 60 * mn + sec, rfl, by linarith⟩
  · intro hr mn sec h1 h2 h3
    exact ⟨3600 * hr + 60 * mn + sec, rfl, by linarith⟩

theorem cvsecs_nonneg_witness :
    (∃ q, cvsecs (.str ("01:01:33.5")) = some q ∧ 0 ≤ q)
    ∧ (∃ q, cvsecs (.pair 1 (43 / 2)) = some q ∧ 0 ≤ q)
    ∧ (∃ q, cvsecs (.triple 1 1 2) = some q ∧ 0 ≤ q) :=
  ⟨cvsecs_nonneg.1 ("01:01:33.5") ⟨['0', '1'], ['0', '1'], ['3', '3'], ['5']⟩
      ⟨0, isSplit_of_concrete sepChars _ _ '.' (by decide) (by decide),
        fun j hj m2 => absurd hj (Nat.not_lt_zero j)⟩,
    cvsecs_nonneg.2.1 1 (43 / 2) (by norm_num) (by norm_num),
    cvsecs_nonneg.2.2 1 1 2 (by norm_num) (by norm_num) (by norm_num)⟩

/-- C7: a non-string non-tuple input is returned unchanged. -/
theorem cvsecs_numeric_identity :
    (∀ x : ℚ, cvsecs (.num x) = some x)
    ∧ cvsecs (.num (77 / 5)) = some (77 / 5) :=
  ⟨fun _ => rfl, rfl⟩

/-- C8 (counterexample): the claim says that for every string
containing a match of the spec's grammar `[.,]` anywhere, the result
comes from the first such match.  On `"0:0:0|4 9:9:9.9"` the first
`[.,]`-match is `9:9:9.9` (value `32949.9`), yet the code returns
`0.4` from the earlier pipe-separated match. -/
theorem cvsecs_text_unanchored_cex :
    LeftmostSplit specSepChars (amend ("0:0:0|4 9:9:9.9").data)
        ⟨['9'], ['9'], ['9'], ['9']⟩
    ∧ tcVal ⟨['9'], ['9'], ['9'], ['9']⟩ = 329499 / 10
    ∧ cvsecs (.str ("0:0:0|4 9:9:9.9")) = some (2 / 5)
    ∧ (2 / 5 : ℚ) ≠ 329499 / 10 := by
  refine ⟨⟨8, isSplit_of_concrete specSepChars _ _ '.' (by decide) (by decide),
    ?_⟩, ?_, ?_, by norm_num⟩
  · intro j hj m2 hsp
    have hm := matchAt_of_split specSepChars _ m2 (by decide) hsp
    have hall : ∀ j2 < 8,
        matchAt specSepChars ((amend ("0:0:0|4 9:9:9.9").data).drop j2)
          = none := by
      decide
    rw [hall j hj] at hm
    exact absurd hm (by simp)
  · rw [tcVal_eval _ 9 9 9 9 1 (by decide) (by decide) (by decide) (by decide)
      (by decide)]
    norm_num
  · show (findFirst sepChars (amend ("0:0:0|4 9:9:9.9").data)).map tcVal
      = some (2 / 5)
    rw [show findFirst sepChars (amend ("0:0:0|4 9:9:9.9").data)
        = some ⟨['0'], ['0'], ['0'], ['4']⟩ from by decide,
      Option.map_some',
      tcVal_eval _ 0 0 0 4 1 (by decide) (by decide) (by decide) (by decide)
        (by decide)]
    norm_num

/-- C8 (amended): the parse is not anchored: any digit-free prefix and
any suffix not starting with a digit are silently ignored, and the
result comes from the first match of the source's pattern
`(\d+):(\d+):(\d+)[,|.](\d+)` (the pipe is accepted as a separator
too). -/
theorem cvsecs_text_unanchored (pre d1 d2 d3 d4 post : List Char) (sep : Char)
    (hpre : ∀ c ∈ pre, c.isDigit = false)
    (h1 : d1 ≠ []) (h2 : d2 ≠ []) (h3 : d3 ≠ []) (h4 : d4 ≠ [])
    (hd1 : ∀ c ∈ d1, c.isDigit = true) (hd2 : ∀ c ∈ d2, c.isDigit = true)
    (hd3 : ∀ c ∈ d3, c.isDigit = true) (hd4 : ∀ c ∈ d4, c.isDigit = true)
    (hsep : sep ∈ sepChars)
    (hpost : post = [] ∨ ∃ c r, post = c :: r ∧ c.isDigit = false) :
    cvsecs (.str ⟨pre ++ (d1 ++ ':' :: (d2 ++ ':' :: (d3 ++ sep :: (d4 ++ post))))⟩)
      = some (3600 * (digitsVal d1 : ℚ) + 60 * (digitsVal d2 : ℚ)
          + (digitsVal d3 : ℚ) + (digitsVal d4 : ℚ) / 10 ^ d4.length) :=
  cvsecs_shape pre d1 d2 d3 d4 post sep hpre h1 h2 h3 h4 hd1 hd2 hd3 hd4 hsep hpost

theorem cvsecs_text_unanchored_witness :
    cvsecs (.str ("xx01:02:03.5yy")) = some (7447 / 2) := by
  have h := cvsecs_text_unanchored ['x', 'x'] ['0', '1'] ['0', '2'] ['0', '3']
    ['5'] ['y', 'y'] '.' (by decide) (by decide) (by decide) (by decide)
    (by decide) (by decide) (by decide) (by decide) (by decide) (by decide)
    (Or.inr ⟨'y', ['y'], rfl, by decide⟩)
  have hstr : (⟨['x', 'x'] ++ (['0', '1'] ++ ':' :: (['0', '2'] ++ ':' ::
      (['0', '3'] ++ '.' :: (['5'] ++ ['y', 'y']))))⟩ : String)
      = "xx01:02:03.5yy" := by decide
  rw [← hstr, h,
    show digitsVal ['0', '1'] = 1 from by decide,
    show digitsVal ['0', '2'] = 2 from by decide,
    show digitsVal ['0', '3'] = 3 from by decide,
    show digitsVal ['5'] = 5 from by decide,
    show (['5'] : List Char).length = 1 from rfl]
  norm_num

/-- C9: no range validation of the minute/second fields: any digit
strings are accepted and summed with their weights, whatever their
values. -/
theorem cvsecs_no_range_check (d1 d2 d3 d4 : List Char)
    (h1 : d1 ≠ []) (h2 : d2 ≠ []) (h3 : d3 ≠ []) (h4 : d4 ≠ [])
    (hd1 : ∀ c ∈ d1, c.isDigit = true) (hd2 : ∀ c ∈ d2, c.isDigit = true)
    (hd3 : ∀ c ∈ d3, c.isDigit = true) (hd4 : ∀ c ∈ d4, c.isDigit = true) :
    cvsecs (.str ⟨d1 ++ ':' :: (d2 ++ ':' :: (d3 ++ '.' :: d4))⟩)
      = some (3600 * (digitsVal d1 : ℚ) + 60 * (digitsVal d2 : ℚ)
          + (digitsVal d3 : ℚ) + (digitsVal d4 : ℚ) / 10 ^ d4.length) := by
  have h := cvsecs_shape [] d1 d2 d3 d4 [] '.' (by simp) h1 h2 h3 h4
    hd1 hd2 hd3 hd4 (by decide) (Or.inl rfl)
  simpa using h

theorem cvsecs_no_range_check_witness :
    60 ≤ digitsVal ['9', '9']
    ∧ cvsecs (.str ("00:99:99.0")) = some 6039 := by
  refine ⟨by decide, ?_⟩
  have h := cvsecs_no_range_check ['0', '0'] ['9', '9'] ['9', '9'] ['0']
    (by decide) (by decide) (by decide) (by decide)
    (by decide) (by decide) (by decide) (by decide)
  have hstr : (⟨['0', '0'] ++ ':' :: (['9', '9'] ++ ':' ::
      (['9', '9'] ++ '.' :: ['0']))⟩ : String) = "00:99:99.0" := by decide
  rw [← hstr, h,
    show digitsVal ['0', '0'] = 0 from by decide,
    show digitsVal ['9', '9'] = 99 from by decide,
    show digitsVal ['0'] = 0 from by decide,
    show (['0'] : List Char).length = 1 from rfl]
  norm_num

/-- C10: in the shipped registry every codec name belongs to at most
one entry, so `find_extension` gives the same answer over any
permutation (any iteration order) of the table. -/
theorem find_extension_deterministic :
    (∀ c : String, ∀ p ∈ extensions_dict, ∀ q ∈ extensions_dict,
      hasCodec p.2 c = true → hasCodec q.2 c = true → p = q)
    ∧ (∀ l, l.Perm extensions_dict → ∀ c, findExtIn l c = find_extension c) := by
  have huniq : ∀ c : String, ∀ p ∈ extensions_dict, ∀ q ∈ extensions_dict,
      hasCodec p.2 c = true → hasCodec q.2 c = true → p = q := by
    intro c p hp q hq hcp hcq
    rcases pairwise_or extensions_codecs_disjoint hp hq with h | h | h
    · exact h
    · exact absurd ((hasCodec_iff _ _).mp hcq) (h c ((hasCodec_iff _ _).mp hcp))
    · exact absurd ((hasCodec_iff _ _).mp hcp) (h c ((hasCodec_iff _ _).mp hcq))
  refine ⟨huniq, ?_⟩
  intro l hperm c
  unfold find_extension findExtIn
  cases hd : extensions_dict.find? (fun p => hasCodec p.2 c) with
  | none =>
    have hnone := List.find?_eq_none.mp hd
    have hl : l.find? (fun p => hasCodec p.2 c) = none :=
      List.find?_eq_none.mpr (fun x hx => hnone x (hperm.mem_iff.mp hx))
    rw [hl]
  | some e =>
    have hmem : e ∈ extensions_dict := List.mem_of_find?_eq_some hd
    have hpe : hasCodec e.2 c = true := by simpa using List.find?_some hd
    cases hl : l.find? (fun p => hasCodec p.2 c) with
    | none =>
      have hno := List.find?_eq_none.mp hl e (hperm.mem_iff.mpr hmem)
      exact absurd hpe hno
    | some e2 =>
      have hmem2 : e2 ∈ extensions_dict :=
        hperm.mem_iff.mp (List.mem_of_find?_eq_some hl)
      have hpe2 : hasCodec e2.2 c = true := by simpa using List.find?_some hl
      rw [huniq c e2 hmem2 e hmem hpe2 hpe]

theorem find_extension_deterministic_witness :
    findExtIn extensions_dict.reverse ("libx264")
      = find_extension ("libx264") :=
  find_extension_deterministic.2 extensions_dict.reverse
    (List.reverse_perm extensions_dict) ("libx264")

end MoviePyTools
